import Mathlib

/-!
Verification of the elkai-rs C core: the recoverable call boundary of
src/_elkai.c, the error hook of LKH-3.0.8/SRC/eprintf.c, and the dual-mode
line/number reader of LKH-3.0.8/SRC/ReadLine.c.  Bytes are modelled as
natural numbers (their character codes); streams and buffers as lists of
bytes; fallible or crashing operations return Option.
-/

/-- State of the in-memory line source of ReadLine.c: the global gbString
ReadLineBuf (none models the null pointer; the allocation holds the listed
content followed by a terminating 0 byte) and the global cursor ReadLinePtr. -/
structure RState where
  buf : Option (List Nat)
  ptr : Nat
  deriving DecidableEq

/-- WriteLine from ReadLine.c: allocates an empty gbString when ReadLineBuf is
null, then appends the given bytes to it.  The cursor is untouched. -/
def WriteLine (str : List Nat) (s : RState) : RState :=
  { s with buf := some (s.buf.getD [] ++ str) }

/-- ClearLines from ReadLine.c: resets the cursor ReadLinePtr to 0 and, when
the buffer is held, frees it and nulls the pointer. -/
def ClearLines (_s : RState) : RState :=
  { buf := none, ptr := 0 }

/-- Number of gb_free_string calls one ClearLines invocation performs on the
given state (the free is guarded by ReadLineBuf != 0). -/
def ClearLinesFrees (s : RState) : Nat :=
  if s.buf.isSome then 1 else 0

/-- Whitespace test of the C locale as consulted by strtof: the space byte 32
and the bytes 9 to 13 (tab, newline, vertical tab, form feed, carriage
return). -/
def isSpace (c : Nat) : Bool := c == 32 || (9 ≤ c && c ≤ 13)

/-- Decimal digit test: byte codes 48 to 57. -/
def isDigit (c : Nat) : Bool := 48 ≤ c && c ≤ 57

/-- Value of a sequence of decimal digit bytes. -/
def digitsVal (ds : List Nat) : Nat := ds.foldl (fun a d => a * 10 + (d - 48)) 0

/-- Value of a parsed decimal floating literal with the given sign, integer
digits, fraction digits, exponent sign and exponent digits: the exact
rational sign * (intPart + fracPart / 10 ^ fracLen) * 10 ^ (expSign *
expVal), written as one normalized fraction. -/
def strtofVal (neg : Bool) (intDs fracDs : List Nat) (expNeg : Bool)
    (expDs : List Nat) : ℚ :=
  let mantNat : Nat := digitsVal intDs * 10 ^ fracDs.length + digitsVal fracDs
  let num : Int :=
    (if neg then -(mantNat : Int) else (mantNat : Int)) *
      ((if expNeg then 1 else 10 ^ digitsVal expDs : Nat) : Int)
  let den : Nat := 10 ^ (fracDs.length + if expNeg then digitsVal expDs else 0)
  mkRat num den

/-- Result of one strtof conversion: a finite value (exact rational), a
signed infinity, or a nan. -/
inductive FloatVal where
  | rat (q : ℚ)
  | inf (neg : Bool)
  | nan
  deriving DecidableEq

/-- Byte mapped to lower case (for the case-insensitive infinity and nan
forms of strtof). -/
def lowerCase (c : Nat) : Nat := if 65 ≤ c ∧ c ≤ 90 then c + 32 else c

/-- Case-insensitive test that the string starts with the given lower-case
pattern. -/
def startsWithCI : List Nat → List Nat → Bool
  | _, [] => true
  | [], _ :: _ => false
  | c :: s, p :: ps => lowerCase c == p && startsWithCI s ps

/-- Characters admitted in the n-char-sequence of a nan(...) form: digits,
letters and underscore. -/
def isNanChar (c : Nat) : Bool :=
  isDigit c || (65 ≤ c && c ≤ 90) || (97 ≤ c && c ≤ 122) || c == 95

/-- Length of a parenthesized n-char-sequence immediately following nan
(opening parenthesis 40, body, closing parenthesis 41), or 0 when none is
properly closed (strtof then consumes just the nan). -/
def nanPayloadLen (s : List Nat) : Nat :=
  match s.head? with
  | some 40 =>
    let body := (s.drop 1).takeWhile isNanChar
    if ((s.drop 1).drop body.length).head? == some 41 then body.length + 2 else 0
  | _ => 0

/-- Whether the first byte of the string is a decimal digit. -/
def headIsDigit (s : List Nat) : Bool :=
  match s.head? with
  | some c => isDigit c
  | none => false

/-- The string with one leading sign byte (43 or 45) removed, if present. -/
def afterSign (s : List Nat) : List Nat :=
  if s.head? == some 45 || s.head? == some 43 then s.drop 1 else s

/-- Condition under which a valid numeric prefix is present at the start of
the string, per the C99 strtof grammar: after optional whitespace and an
optional sign there is a digit, or a decimal point followed by a digit, or
the start of an infinity or nan form.  (A hexadecimal form begins with the
digit 0, so the digit case covers it.) -/
def numericStart (s : List Nat) : Bool :=
  let t1 := afterSign (s.dropWhile isSpace)
  headIsDigit t1 || (t1.head? == some 46 && headIsDigit (t1.drop 1)) ||
    startsWithCI t1 [105, 110, 102] || startsWithCI t1 [110, 97, 110]

/-- Model of C99 strtof on the NUL-terminated string whose bytes are given:
skips whitespace, accepts an optional sign, then either an infinity form
(inf or infinity, case-insensitive), a nan form (nan with an optional
parenthesized n-char-sequence), or a digit sequence optionally containing
one decimal point (at least one digit in total) with an optional well-formed
exponent part; returns the parsed value and the number of bytes consumed,
with (0, 0) when no valid numeric prefix is present (the end pointer is then
reset to the start, as strtof specifies).  The hexadecimal forms are not
modelled: hex input begins with the digit 0, so it is excluded both by the
concrete decimal inputs and by the no-valid-prefix hypothesis of every
theorem below, and the dropped case can make nothing easier. -/
def strtofModel (s : List Nat) : FloatVal × Nat :=
  let ws := s.takeWhile isSpace
  let s1 := s.dropWhile isSpace
  let neg := s1.head? == some 45
  let signLen := if s1.head? == some 45 || s1.head? == some 43 then 1 else 0
  let s2 := afterSign s1
  if startsWithCI s2 [105, 110, 102] then
    let infLen := if startsWithCI (s2.drop 3) [105, 110, 105, 116, 121] then 8 else 3
    (FloatVal.inf neg, ws.length + signLen + infLen)
  else if startsWithCI s2 [110, 97, 110] then
    (FloatVal.nan, ws.length + signLen + 3 + nanPayloadLen (s2.drop 3))
  else
    let intDs := s2.takeWhile isDigit
    let s3 := s2.drop intDs.length
    let hasDot := s3.head? == some 46
    let fracDs := if hasDot then (s3.drop 1).takeWhile isDigit else []
    let dotLen := if hasDot then 1 else 0
    if intDs.isEmpty && fracDs.isEmpty then (FloatVal.rat 0, 0)
    else
      let s4 := s3.drop (dotLen + fracDs.length)
      let mantLen := ws.length + signLen + intDs.length + dotLen + fracDs.length
      let hasExpCh := s4.head? == some 101 || s4.head? == some 69
      let s5 := s4.drop 1
      let expNeg := s5.head? == some 45
      let expSignLen := if s5.head? == some 45 || s5.head? == some 43 then 1 else 0
      let expDs := if hasExpCh then (s5.drop expSignLen).takeWhile isDigit else []
      let expLen := if hasExpCh && !expDs.isEmpty then 1 + expSignLen + expDs.length else 0
      (FloatVal.rat (strtofVal neg intDs fracDs expNeg expDs), mantLen + expLen)

/-- ReadNumber from ReadLine.c: returns 0 immediately when the cursor
ReadLinePtr is 0 (leaving it unchanged); otherwise runs strtof on the string
starting at ReadLineBuf + ReadLinePtr and advances the cursor by the number of
bytes strtof consumed.  none models the null-pointer dereference that occurs
when the buffer is null and the cursor nonzero. -/
def ReadNumber (s : RState) : Option (FloatVal × RState) :=
  if s.ptr = 0 then some (FloatVal.rat 0, s)
  else
    match s.buf with
    | none => none
    | some content =>
      let t := strtofModel (content.drop s.ptr)
      some (t.1, { buf := some content, ptr := s.ptr + t.2 })

/-- The while loop of the in-memory branch of ReadLine: its first argument is
the bytes of the allocation from the cursor on, its second the line assembled
so far.  Each iteration reads the byte at the cursor, stops when it is NUL,
otherwise appends it, advances the cursor, and reads the next byte: when that
byte is a newline the cursor advances past it and the loop breaks.  Returns
the assembled line and the distance the cursor advanced, or none when the
loop would read past the end of the allocation. -/
def ReadLineMemLoop : List Nat → List Nat → Option (List Nat × Nat)
  | [], _ => none
  | c :: rest, acc =>
    if c = 0 then some (acc, 0)
    else
      match rest with
      | [] => none
      | c2 :: rest2 =>
        if c2 = 10 then some (acc ++ [c], 2)
        else (ReadLineMemLoop (c2 :: rest2) (acc ++ [c])).map fun r => (r.1, r.2 + 1)

/-- The in-memory branch of ReadLine (InputFile == 0): dereferences
ReadLineBuf at the cursor (none when the buffer pointer is null or the cursor
lies outside the allocation), returns the no-more-lines signal when that byte
is NUL, and otherwise runs the assembly loop and returns the malloc-copied
line together with the advanced state. -/
def ReadLineMem (s : RState) : Option (Option (List Nat) × RState) :=
  match s.buf with
  | none => none
  | some content =>
    let rem := (content ++ [0]).drop s.ptr
    match rem.head? with
    | none => none
    | some c =>
      if c = 0 then some (none, s)
      else (ReadLineMemLoop rem []).map fun r =>
        (some r.1, { buf := some content, ptr := s.ptr + r.2 })

/-- EndOfLine from ReadLine.c, the stream modelled as the list of bytes not
yet read: reports whether c terminates a line (carriage return or newline)
and returns the stream after the fgetc/ungetc pair the function performs when
c is a carriage return (a following newline is consumed; any other following
byte is pushed back; end of file reads nothing). -/
def EndOfLine (c : Nat) (stream : List Nat) : Bool × List Nat :=
  let eol := c == 13 || c == 10
  if c = 13 then
    match stream with
    | [] => (eol, [])
    | c2 :: rest => if c2 = 10 then (eol, rest) else (eol, c2 :: rest)
  else (eol, stream)

/-- The read loop of the file branch of ReadLine: c = fgetc stops the loop at
end of file; otherwise EndOfLine decides whether the line ends (when c is not
a carriage return EndOfLine leaves the stream untouched, so the loop
continues on the stream it received). -/
def ReadLineFileAux : List Nat → List Nat → Option (List Nat × List Nat)
  | [], acc => if acc.isEmpty then none else some (acc, [])
  | c :: rest, acc =>
    let p := EndOfLine c rest
    if p.1 then some (acc, p.2)
    else ReadLineFileAux rest (acc ++ [c])

/-- The file branch of ReadLine: returns none exactly when fgetc hit end of
file before any byte of the line was read (c == EOF && i == 0), and otherwise
the line content assembled in Buffer together with the remaining stream. -/
def ReadLineFile (stream : List Nat) : Option (List Nat × List Nat) :=
  ReadLineFileAux stream []

/-- The static Buffer/MaxBuffer pair of the file branch of ReadLine.c: data
models the malloc region and its length equals MaxBuffer. -/
structure LineBuffer where
  maxBuffer : Nat
  data : List Nat
  deriving DecidableEq

/-- Buffer as first allocated: malloc(MaxBuffer = 80), fresh bytes modelled
as 0. -/
def initBuffer : LineBuffer :=
  { maxBuffer := 80, data := List.replicate 80 0 }

/-- One body iteration of the file read loop acting on Buffer: when
i >= MaxBuffer - 1 the capacity doubles first (realloc preserves the content;
the new bytes are modelled as 0), then Buffer[i] = c.  A write at an index
outside the region is dropped (List.set out of range), modelling the
truncation an out-of-bounds write would amount to. -/
def writeChar (b : LineBuffer) (i c : Nat) : LineBuffer :=
  let b' :=
    if b.maxBuffer - 1 ≤ i then
      { maxBuffer := b.maxBuffer * 2,
        data := b.data ++ List.replicate b.maxBuffer 0 }
    else b
  { b' with data := b'.data.set i c }

/-- The file read loop restricted to its Buffer effect: the bytes of the line
are written at indices 0, 1, ... through writeChar. -/
def FillLoop : List Nat → Nat → LineBuffer → LineBuffer
  | [], _, b => b
  | c :: cs, i, b => FillLoop cs (i + 1) (writeChar b i c)

/-- Buffer after the file branch of ReadLine consumes the given line: the
loop writes every byte, then Buffer[i] receives the NUL terminator. -/
def FillBuffer (line : List Nat) : LineBuffer :=
  let b := FillLoop line 0 initBuffer
  { b with data := b.data.set line.length 0 }

/-- Observable outcome of one _solve_problem call: the returned pointer (none
is the null sentinel), the caller's toursize variable after the call, the
caller's message buffer after the call, the per-call gbString allocations
still live when the call returns, and whether the process was terminated. -/
structure SolveOutcome where
  result : Option (List Int)
  toursize : Nat
  msgBuf : String
  liveAllocs : List String
  terminated : Bool
  deriving DecidableEq

/-- The _solve_problem boundary of _elkai.c, the solver entry point
abstracted as a function of the two texts.  eprintf (eprintf.c) formats its
message into err_msg_buf, which _solve_problem pointed at the caller's
buffer, and longjmps to ErrorJumpBuffer without ever exiting the process; a
solver run is therefore an Except value whose error m case means the hook
fired with text m at some depth.  The boundary allocates the params and
problem gbStrings, arms the recovery point with setjmp, and on either exit
path frees both strings; toursize is assigned and the tour pointer returned
only on normal completion, while the recovery path returns the null
sentinel. -/
def solve_problem (solver : String → String → Except String (Nat × List Int))
    (paramsStr problemStr : String) (toursize0 : Nat) (msgBuf0 : String) :
    SolveOutcome :=
  let live0 : List String := ["params", "problem"]
  match solver paramsStr problemStr with
  | .error m =>
    { result := none, toursize := toursize0, msgBuf := m,
      liveAllocs := (live0.erase "params").erase "problem", terminated := false }
  | .ok r =>
    { result := some r.2, toursize := r.1, msgBuf := msgBuf0,
      liveAllocs := (live0.erase "params").erase "problem", terminated := false }

/-- Modelled from the spec: ElkaiSolveProblem, the solver entry point, is
implemented in source files that are not present here (only its declaration
is).  Per the spec (sections 3, 4.4 and 6) it resets the in-memory source
between independent calls (cursor to 0, buffer released), builds its input by
appending the parameter and problem texts through the in-memory source, and
reads exclusively through that source, so its result is a function of the two
texts; on a fatal condition the error hook fires (the error m case) and
control longjmps out past every intervening frame. -/
def ElkaiSolveModel (core : List Nat → List Nat → Except String (Nat × List Int))
    (params problem : List Nat) (rs : RState) :
    Except String (Nat × List Int) × RState :=
  let rs1 := WriteLine problem (WriteLine params (ClearLines rs))
  match core params problem with
  | .ok r => (.ok r, rs1)
  | .error m => (.error m, rs1)

/-- The _solve_problem boundary threading the process-wide reader state
through the modelled solver entry point, for reasoning about sequential
calls: returns the observable outcome (returned tour, toursize variable,
message buffer) and the reader state left behind. -/
def solveCall (core : List Nat → List Nat → Except String (Nat × List Int))
    (params problem : List Nat) (toursize0 : Nat) (msgBuf0 : String)
    (rs : RState) : (Option (List Int) × Nat × String) × RState :=
  match ElkaiSolveModel core params problem rs with
  | (.error m, rs') => ((none, toursize0, m), rs')
  | (.ok r, rs') => ((some r.2, r.1, msgBuf0), rs')

/-- Reader state at process start: null buffer, cursor 0. -/
def initialReader : RState := { buf := none, ptr := 0 }

/-! Helper lemmas. -/

theorem drop_append_of_le {α : Type} :
    ∀ (l l' : List α) (n : Nat), n ≤ l.length → (l ++ l').drop n = l.drop n ++ l'
  | _, _, 0, _ => rfl
  | a :: t, l', n + 1, h => by
    simpa using drop_append_of_le t l' n (Nat.le_of_succ_le_succ h)
  | [], _, n + 1, h => by simp at h

theorem take_append_of_le {α : Type} :
    ∀ (l l' : List α) (n : Nat), n ≤ l.length → (l ++ l').take n = l.take n
  | _, _, 0, _ => by simp
  | a :: t, l', n + 1, h => by
    simpa using take_append_of_le t l' n (Nat.le_of_succ_le_succ h)
  | [], _, n + 1, h => by simp at h

theorem take_set_of_le {α : Type} (l : List α) (i n : Nat) (a : α) (h : n ≤ i) :
    (l.set i a).take n = l.take n := by
  rw [List.set_take]
  exact List.set_eq_of_length_le (le_trans (by simp [Nat.min_le_left]) h)

theorem take_succ_set {α : Type} :
    ∀ (l : List α) (i : Nat) (a : α), i < l.length →
      (l.set i a).take (i + 1) = l.take i ++ [a]
  | b :: t, 0, a, _ => by simp
  | b :: t, i + 1, a, h => by
    simpa using take_succ_set t i a (Nat.lt_of_succ_lt_succ h)
  | [], i, a, h => by simp at h

/-! Claim theorems. -/

/-- C8: ClearLines sets the cursor to 0 and releases the owned in-memory
buffer (nulling the pointer), and it is idempotent: a second call finds
nothing held, performs no free, and leaves the very same state. -/
theorem ClearLines_idempotent :
    ∀ s : RState, ClearLines s = { buf := none, ptr := 0 } ∧
      ClearLines (ClearLines s) = ClearLines s ∧
      ClearLinesFrees (ClearLines s) = 0 :=
  fun _ => ⟨rfl, rfl, rfl⟩

/-- C1: whenever the error hook fires at any depth during a _solve_problem
call (the solver run ends in error m), the call frees the params and problem
strings it allocated (no per-call allocation stays live), returns the null
sentinel, leaves the formatted failure text in the caller's message buffer,
and never terminates the process. -/
theorem solve_problem_error_path
    (solver : String → String → Except String (Nat × List Int))
    (p q : String) (ts0 : Nat) (msg0 m : String)
    (h : solver p q = .error m) :
    solve_problem solver p q ts0 msg0 =
      { result := none, toursize := ts0, msgBuf := m, liveAllocs := [],
        terminated := false } := by
  simp [solve_problem, h]

/-- Witness for C1 at a concrete always-failing solver. -/
theorem solve_problem_error_path_witness :
    solve_problem (fun _ _ => .error "bad") "P" "Q" 7 "" =
      { result := none, toursize := 7, msgBuf := "bad", liveAllocs := [],
        terminated := false } :=
  solve_problem_error_path (fun _ _ => .error "bad") "P" "Q" 7 "" "bad" rfl

/-- C9: on the recovered-failure path the caller's toursize out-parameter is
never written (it keeps its prior value and the null sentinel is returned);
it is assigned only on the normal-completion path. -/
theorem solve_problem_toursize_frame
    (solver : String → String → Except String (Nat × List Int))
    (p q : String) (ts0 : Nat) (msg0 : String) :
    (∀ m, solver p q = .error m →
      (solve_problem solver p q ts0 msg0).toursize = ts0 ∧
      (solve_problem solver p q ts0 msg0).result = none) ∧
    (∀ r, solver p q = .ok r →
      (solve_problem solver p q ts0 msg0).toursize = r.1) := by
  constructor
  · intro m h
    simp [solve_problem, h]
  · intro r h
    simp [solve_problem, h]

/-- Witness for C9: a failing call leaves toursize at 7; a succeeding call
overwrites it. -/
theorem solve_problem_toursize_frame_witness :
    (solve_problem (fun _ _ => .error "x") "P" "Q" 7 "").toursize = 7 ∧
    (solve_problem (fun _ _ => .error "x") "P" "Q" 7 "").result = none ∧
    (solve_problem (fun _ _ => .ok (3, [0, 1, 2])) "P" "Q" 7 "").toursize = 3 :=
  ⟨((solve_problem_toursize_frame (fun _ _ => .error "x") "P" "Q" 7 "").1 "x" rfl).1,
   ((solve_problem_toursize_frame (fun _ _ => .error "x") "P" "Q" 7 "").1 "x" rfl).2,
   (solve_problem_toursize_frame (fun _ _ => .ok (3, [0, 1, 2])) "P" "Q" 7 "").2
     (3, [0, 1, 2]) rfl⟩

/-- C6: a call's observable outcome does not depend on the reader state left
behind by an earlier call, so two sequential calls (success then failure, or
failure then success, in any combination the cores realize) behave exactly as
the second call run in isolation from the pristine state; the first call's
outcome likewise matches its isolated run. -/
theorem solveCall_no_state_leak
    (core1 core2 : List Nat → List Nat → Except String (Nat × List Int))
    (p1 q1 p2 q2 : List Nat) (ts1 ts2 : Nat) (m1 m2 : String) (rs : RState) :
    (solveCall core2 p2 q2 ts2 m2 (solveCall core1 p1 q1 ts1 m1 rs).2).1 =
      (solveCall core2 p2 q2 ts2 m2 initialReader).1 ∧
    (solveCall core1 p1 q1 ts1 m1 rs).1 =
      (solveCall core1 p1 q1 ts1 m1 initialReader).1 :=
  ⟨rfl, rfl⟩

theorem takeWhile_nil_of_headIsDigit (s : List Nat) (h : headIsDigit s = false) :
    s.takeWhile isDigit = [] := by
  cases s with
  | nil => rfl
  | cons c cs =>
    simp only [headIsDigit, List.head?_cons] at h
    simp [List.takeWhile_cons, h]

theorem strtofModel_noStart (s : List Nat) (h : numericStart s = false) :
    strtofModel s = (FloatVal.rat 0, 0) := by
  simp only [numericStart, Bool.or_eq_false_iff] at h
  obtain ⟨⟨⟨hdig, hdot⟩, hinf⟩, hnan⟩ := h
  have hint := takeWhile_nil_of_headIsDigit _ hdig
  by_cases hdotc : (afterSign (s.dropWhile isSpace)).head? == some 46
  · have hfrac : (afterSign (s.dropWhile isSpace)).tail.takeWhile isDigit = [] := by
      apply takeWhile_nil_of_headIsDigit
      rw [Bool.and_eq_false_iff] at hdot
      cases hdot with
      | inl h46 => exact absurd hdotc (by simp [h46])
      | inr hd2 =>
        rw [← List.drop_one]
        exact hd2
    simp [strtofModel, hinf, hnan, hint, hdotc, hfrac, -List.takeWhile_eq_nil_iff]
  · simp [strtofModel, hinf, hnan, hint, hdotc, -List.takeWhile_eq_nil_iff]

/-- C2 counterexample: for an in-memory source built by appending the bytes
of the text 3, newline, 4, space, 5, newline (51 10 52 32 53 10), the very
first ReadNumber call yields 0 and leaves the cursor unchanged, because of
the cursor-at-zero guard, so it does not yield 3 and the claimed sequence 3,
4, 5 is never produced. -/
theorem ReadNumber_first_call_cex :
    ReadNumber (WriteLine [51, 10, 52, 32, 53, 10] initialReader) =
      some (FloatVal.rat 0, WriteLine [51, 10, 52, 32, 53, 10] initialReader) ∧
    (ReadNumber (WriteLine [51, 10, 52, 32, 53, 10] initialReader)).map Prod.fst ≠
      some (FloatVal.rat 3) := by
  decide

/-- C2 (amended): ReadNumber returns 0 without advancing whenever the cursor
is 0, even when a number is present there, so on the freshly appended source
the first call yields 0, not 3; from any nonzero cursor the remaining numbers
are yielded in order, ignoring line structure: from cursor 1 on the appended
bytes the calls yield 4, then 5, then a yield of 0 without the cursor
advancing; and in general, whenever no valid numeric prefix is present at
the cursor (after whitespace and an optional sign, no digit, no decimal
point followed by a digit, and no infinity or nan form), ReadNumber returns
0 and leaves the cursor unchanged. -/
theorem ReadNumber_amended :
    (∀ s : RState, s.ptr = 0 → ReadNumber s = some (FloatVal.rat 0, s)) ∧
    (ReadNumber { buf := some [51, 10, 52, 32, 53, 10], ptr := 1 } =
      some (FloatVal.rat 4, { buf := some [51, 10, 52, 32, 53, 10], ptr := 3 }) ∧
     ReadNumber { buf := some [51, 10, 52, 32, 53, 10], ptr := 3 } =
      some (FloatVal.rat 5, { buf := some [51, 10, 52, 32, 53, 10], ptr := 5 }) ∧
     ReadNumber { buf := some [51, 10, 52, 32, 53, 10], ptr := 5 } =
      some (FloatVal.rat 0, { buf := some [51, 10, 52, 32, 53, 10], ptr := 5 })) ∧
    (∀ (content : List Nat) (k : Nat), numericStart (content.drop k) = false →
      ReadNumber { buf := some content, ptr := k } =
        some (FloatVal.rat 0, { buf := some content, ptr := k })) := by
  refine ⟨?_, by decide, ?_⟩
  · intro s hs
    simp [ReadNumber, hs]
  · intro content k h
    by_cases hk : k = 0
    · simp [ReadNumber, hk]
    · simp [ReadNumber, hk, strtofModel_noStart _ h]

/-- Witness for C2 (amended): the cursor-at-zero guard on a digit-carrying
buffer, and a tail with no valid numeric prefix at a nonzero cursor. -/
theorem ReadNumber_amended_witness :
    ReadNumber { buf := some [51], ptr := 0 } =
      some (FloatVal.rat 0, { buf := some [51], ptr := 0 }) ∧
    ReadNumber { buf := some [97, 97], ptr := 1 } =
      some (FloatVal.rat 0, { buf := some [97, 97], ptr := 1 }) :=
  ⟨ReadNumber_amended.1 { buf := some [51], ptr := 0 } rfl,
   ReadNumber_amended.2.2 [97, 97] 1 (by decide)⟩

theorem ReadLineMemLoop_bound : ∀ (tail : List Nat), 0 ∉ tail →
    ∀ acc, ∃ p : List Nat × Nat,
      ReadLineMemLoop (tail ++ [0]) acc = some p ∧ p.2 ≤ tail.length := by
  intro tail
  induction tail with
  | nil =>
    intro _ acc
    exact ⟨(acc, 0), rfl, Nat.le_refl 0⟩
  | cons c rest ih =>
    intro h0 acc
    have hc : c ≠ 0 := fun hc => h0 (hc ▸ List.mem_cons_self c rest)
    have h0r : 0 ∉ rest := fun hm => h0 (List.mem_cons_of_mem c hm)
    cases rest with
    | nil =>
      exact ⟨(acc ++ [c], 1), by simp [ReadLineMemLoop, hc], by simp⟩
    | cons c2 rest2 =>
      by_cases h210 : c2 = 10
      · subst h210
        exact ⟨(acc ++ [c], 2), by simp [ReadLineMemLoop, hc], by simp⟩
      · obtain ⟨p, hp, hb⟩ := ih h0r (acc ++ [c])
        refine ⟨(p.1, p.2 + 1), ?_, Nat.succ_le_succ hb⟩
        simp [ReadLineMemLoop, hc, h210]
        exact hp

theorem ReadLineMemLoop_spec : ∀ (rest : List Nat) (c : Nat) (acc : List Nat),
    c ≠ 0 → c ≠ 10 → 0 ∉ rest →
    ReadLineMemLoop ((c :: rest) ++ [0]) acc =
      some (acc ++ (c :: rest).takeWhile (fun b => b != 10),
        min (((c :: rest).takeWhile (fun b => b != 10)).length + 1)
          (c :: rest).length) := by
  intro rest
  induction rest with
  | nil =>
    intro c acc hc hc10 _
    simp [ReadLineMemLoop, hc, hc10]
  | cons c2 rest2 ih =>
    intro c acc hc hc10 h0
    have hc2 : c2 ≠ 0 := fun hc2 => h0 (hc2 ▸ List.mem_cons_self c2 rest2)
    have h0r : 0 ∉ rest2 := fun hm => h0 (List.mem_cons_of_mem c2 hm)
    by_cases h210 : c2 = 10
    · subst h210
      simp [ReadLineMemLoop, hc, hc10]
    · have hr := ih c2 (acc ++ [c]) hc2 h210 h0r
      have step : ReadLineMemLoop ((c :: c2 :: rest2) ++ [0]) acc =
          (ReadLineMemLoop ((c2 :: rest2) ++ [0]) (acc ++ [c])).map
            fun r => (r.1, r.2 + 1) := by
        simp [ReadLineMemLoop, hc, h210]
      rw [step, hr, Option.map_some']
      rw [List.takeWhile_cons_of_pos (p := fun b => b != 10) (a := c)
        (l := c2 :: rest2) (by simp [hc10])]
      simp only [Option.some.injEq, Prod.mk.injEq]
      refine ⟨by simp, ?_⟩
      simp only [List.length_cons]
      omega

/-- C3 (amended): with the in-memory source holding text (no NUL byte) and
the cursor inside it, ReadLineMem signals no more lines exactly when the
cursor is at the end of the buffer; otherwise, provided the byte at the
cursor is not itself a newline, it returns the bytes from the cursor up to
(and consuming) the next newline — or up to the end of the buffer if there is
none — with the terminator stripped, and advances the cursor past the
terminator.  (When the byte at the cursor is a newline the code includes it
in the returned line instead of producing an empty line, which is what the
counterexample exhibits and what this amendment excludes.) -/
theorem ReadLineMem_correct (content : List Nat) (k : Nat)
    (h0 : 0 ∉ content) (hle : k ≤ content.length) :
    (ReadLineMem { buf := some content, ptr := k } =
        some (none, { buf := some content, ptr := k }) ↔ k = content.length) ∧
    (∀ c rest, content.drop k = c :: rest → c ≠ 10 →
      ReadLineMem { buf := some content, ptr := k } =
        some (some ((content.drop k).takeWhile (fun b => b != 10)),
          { buf := some content,
            ptr := k + min (((content.drop k).takeWhile (fun b => b != 10)).length + 1)
              (content.drop k).length })) := by
  have hrem : (content ++ [0]).drop k = content.drop k ++ [0] :=
    drop_append_of_le content [0] k hle
  by_cases hk : k = content.length
  · have hdrop : content.drop k = [] := by
      rw [hk]; exact List.drop_length content
    have hval : ReadLineMem { buf := some content, ptr := k } =
        some (none, { buf := some content, ptr := k }) := by
      simp [ReadLineMem, hrem, hdrop]
    refine ⟨⟨fun _ => hk, fun _ => hval⟩, ?_⟩
    intro c rest hcr _
    rw [hdrop] at hcr
    simp at hcr
  · have hlt : k < content.length := lt_of_le_of_ne hle hk
    obtain ⟨c, rest, hcr⟩ : ∃ c rest, content.drop k = c :: rest := by
      cases hd : content.drop k with
      | nil =>
        exfalso
        have hlen := congrArg List.length hd
        simp [List.length_drop] at hlen
        omega
      | cons c rest => exact ⟨c, rest, rfl⟩
    have hcmem : ∀ x ∈ c :: rest, x ∈ content := fun x hx =>
      List.mem_of_mem_drop (hcr ▸ hx)
    have hc0 : c ≠ 0 := fun h => h0 (h ▸ hcmem c (List.mem_cons_self c rest))
    have h0t : 0 ∉ c :: rest := fun hm => h0 (hcmem 0 hm)
    constructor
    · constructor
      · intro hsig
        obtain ⟨p, hp, _⟩ := ReadLineMemLoop_bound (c :: rest) h0t []
        rw [List.cons_append] at hp
        have hv : ReadLineMem { buf := some content, ptr := k } =
            some (some p.1, { buf := some content, ptr := k + p.2 }) := by
          simp [ReadLineMem, hrem, hcr, hc0, hp]
        rw [hv] at hsig
        simp at hsig
      · intro h; exact absurd h hk
    · intro c' rest' hcr' hc10
      rw [hcr] at hcr'
      injection hcr' with h1 h2
      subst h1; subst h2
      have hs := ReadLineMemLoop_spec rest c [] hc0 hc10
        (fun hm => h0t (List.mem_cons_of_mem c hm))
      rw [List.cons_append] at hs
      simp [ReadLineMem, hrem, hcr, hc0, hs]

/-- C3 counterexample: on the buffer holding a single newline byte with the
cursor at 0, the in-memory ReadLine returns the newline inside the returned
line (cursor advanced to 1) instead of the empty line with the terminator
stripped that the claim predicts. -/
theorem ReadLineMem_newline_cex :
    ReadLineMem { buf := some [10], ptr := 0 } =
      some (some [10], { buf := some [10], ptr := 1 }) ∧
    ReadLineMem { buf := some [10], ptr := 0 } ≠
      some (some [], { buf := some [10], ptr := 1 }) := by
  decide

/-- Witness for C3 (amended) on the two-byte buffer 51 10: the line is the
byte 51 with the newline consumed but stripped. -/
theorem ReadLineMem_correct_witness :
    ReadLineMem { buf := some [51, 10], ptr := 0 } =
      some (some [51], { buf := some [51, 10], ptr := 2 }) :=
  ((ReadLineMem_correct [51, 10] 0 (by decide) (by decide)).2 51 [10]
    (by decide) (by decide)).trans (by decide)

/-- C10: in-memory reading requires the buffer to have been initialized —
WriteLine always leaves a non-null buffer — and under the precondition that
the buffer is non-null (holding NUL-free text) with the cursor inside it,
every access of ReadLineMem stays within the appended content plus its
terminator (the checked-access model returns some, and the resulting cursor
is again inside the content); without the precondition the very first access
dereferences the null buffer (the model returns none). -/
theorem ReadLineMem_precondition :
    (∀ k, ReadLineMem { buf := none, ptr := k } = none) ∧
    (∀ (s : RState) (str : List Nat), ((WriteLine str s).buf).isSome = true) ∧
    (∀ (content : List Nat) (k : Nat), k ≤ content.length → 0 ∉ content →
      ∃ r, ReadLineMem { buf := some content, ptr := k } = some r ∧
        r.2.ptr ≤ content.length ∧ r.2.buf = some content) := by
  refine ⟨fun k => rfl, fun s str => rfl, ?_⟩
  intro content k hle h0
  have hrem : (content ++ [0]).drop k = content.drop k ++ [0] :=
    drop_append_of_le content [0] k hle
  by_cases hk : k = content.length
  · refine ⟨(none, { buf := some content, ptr := k }), ?_, hle, rfl⟩
    have hdrop : content.drop k = [] := by
      rw [hk]; exact List.drop_length content
    simp [ReadLineMem, hrem, hdrop]
  · have hlt : k < content.length := lt_of_le_of_ne hle hk
    obtain ⟨c, rest, hcr⟩ : ∃ c rest, content.drop k = c :: rest := by
      cases hd : content.drop k with
      | nil =>
        exfalso
        have hlen := congrArg List.length hd
        simp [List.length_drop] at hlen
        omega
      | cons c rest => exact ⟨c, rest, rfl⟩
    have hcmem : ∀ x ∈ c :: rest, x ∈ content := fun x hx =>
      List.mem_of_mem_drop (hcr ▸ hx)
    have hc0 : c ≠ 0 := fun h => h0 (h ▸ hcmem c (List.mem_cons_self c rest))
    have h0t : 0 ∉ c :: rest := fun hm => h0 (hcmem 0 hm)
    obtain ⟨p, hp, hb⟩ := ReadLineMemLoop_bound (c :: rest) h0t []
    rw [List.cons_append] at hp
    refine ⟨(some p.1, { buf := some content, ptr := k + p.2 }), ?_, ?_, rfl⟩
    · simp [ReadLineMem, hrem, hcr, hc0, hp]
    · have hlen : (c :: rest).length = content.length - k := by
        rw [← hcr, List.length_drop]
      simp only []
      omega

/-- Witness for C10: the null-buffer crash at cursor 0, and a safe read on
the one-byte buffer 51. -/
theorem ReadLineMem_precondition_witness :
    ReadLineMem { buf := none, ptr := 0 } = none ∧
    ∃ r, ReadLineMem { buf := some [51], ptr := 0 } = some r ∧
      r.2.ptr ≤ 1 ∧ r.2.buf = some [51] :=
  ⟨ReadLineMem_precondition.1 0, by
    obtain ⟨r, h1, h2, h3⟩ :=
      ReadLineMem_precondition.2.2 [51] 0 (by decide) (by decide)
    exact ⟨r, h1, by simpa using h2, h3⟩⟩

theorem ReadLineFileAux_append : ∀ (L : List Nat), (∀ c ∈ L, c ≠ 10 ∧ c ≠ 13) →
    ∀ (s acc : List Nat), ReadLineFileAux (L ++ s) acc = ReadLineFileAux s (acc ++ L) := by
  intro L
  induction L with
  | nil => intro _ s acc; simp
  | cons c L ih =>
    intro h s acc
    have hc := h c (List.mem_cons_self c L)
    have he : EndOfLine c (L ++ s) = (false, L ++ s) := by
      simp [EndOfLine, hc.1, hc.2]
    have ht := ih (fun a ha => h a (List.mem_cons_of_mem c ha)) s (acc ++ [c])
    calc ReadLineFileAux ((c :: L) ++ s) acc
        = ReadLineFileAux (L ++ s) (acc ++ [c]) := by
          simp [ReadLineFileAux, he]
      _ = ReadLineFileAux s ((acc ++ [c]) ++ L) := ht
      _ = ReadLineFileAux s (acc ++ c :: L) := by simp

/-- C4: the file-backed ReadLine returns identical line content whether the
line is terminated by newline, carriage return, or carriage return plus
newline: the pair is consumed as one terminator, a carriage return followed
by any other byte ends the line and leaves that byte unconsumed for the next
read, and a carriage return at end of input ends the line as well. -/
theorem ReadLineFile_terminator_styles (L R : List Nat)
    (hL : ∀ c ∈ L, c ≠ 10 ∧ c ≠ 13) :
    ReadLineFile (L ++ 10 :: R) = some (L, R) ∧
    ReadLineFile (L ++ 13 :: 10 :: R) = some (L, R) ∧
    (∀ b R', b ≠ 10 → ReadLineFile (L ++ 13 :: b :: R') = some (L, b :: R')) ∧
    ReadLineFile (L ++ [13]) = some (L, []) := by
  refine ⟨?_, ?_, ?_, ?_⟩
  · rw [ReadLineFile, ReadLineFileAux_append L hL]
    simp [ReadLineFileAux, EndOfLine]
  · rw [ReadLineFile, ReadLineFileAux_append L hL]
    simp [ReadLineFileAux, EndOfLine]
  · intro b R' hb
    rw [ReadLineFile, ReadLineFileAux_append L hL]
    simp [ReadLineFileAux, EndOfLine, hb]
  · rw [ReadLineFile, ReadLineFileAux_append L hL]
    simp [ReadLineFileAux, EndOfLine]

/-- Witness for C4 on the one-byte line 97: all three terminator styles give
the line 97, and a carriage return followed by 98 leaves 98 unconsumed. -/
theorem ReadLineFile_terminator_styles_witness :
    ReadLineFile [97, 10, 99] = some ([97], [99]) ∧
    ReadLineFile [97, 13, 10, 99] = some ([97], [99]) ∧
    ReadLineFile [97, 13, 98, 99] = some ([97], [98, 99]) ∧
    ReadLineFile [97, 13] = some ([97], []) := by
  have h := ReadLineFile_terminator_styles [97] [99] (by decide)
  exact ⟨h.1, h.2.1, h.2.2.1 98 [99] (by decide), h.2.2.2⟩

/-- C5: the file-backed ReadLine signals no more lines (null) on the first
read of an empty or exhausted stream, which is distinct from a legitimate
empty line (returned as a zero-length line); and a stream whose last line
lacks a trailing terminator still yields that non-empty line exactly once
before the next read signals end of input. -/
theorem ReadLineFile_end_of_input :
    ReadLineFile [] = none ∧
    (∀ R, ReadLineFile (10 :: R) = some ([], R)) ∧
    (∀ L, L ≠ [] → (∀ c ∈ L, c ≠ 10 ∧ c ≠ 13) →
      ReadLineFile L = some (L, []) ∧ ReadLineFile [] = none) := by
  refine ⟨rfl, ?_, ?_⟩
  · intro R
    simp [ReadLineFile, ReadLineFileAux, EndOfLine]
  · intro L hne hL
    refine ⟨?_, rfl⟩
    have h : ReadLineFileAux (L ++ []) [] = ReadLineFileAux [] ([] ++ L) :=
      ReadLineFileAux_append L hL [] []
    simp only [List.append_nil, List.nil_append] at h
    rw [ReadLineFile, h, ReadLineFileAux]
    simp [hne]

/-- Witness for C5: the empty stream signals no more lines, a lone newline is
the empty line, and the unterminated line 97 98 is yielded once. -/
theorem ReadLineFile_end_of_input_witness :
    ReadLineFile [] = none ∧
    ReadLineFile [10, 99] = some ([], [99]) ∧
    ReadLineFile [97, 98] = some ([97, 98], []) :=
  ⟨ReadLineFile_end_of_input.1,
   ReadLineFile_end_of_input.2.1 [99],
   (ReadLineFile_end_of_input.2.2 [97, 98] (by decide) (by decide)).1⟩

theorem FillLoop_invariant : ∀ (cs : List Nat) (i : Nat) (b : LineBuffer),
    b.data.length = b.maxBuffer → i + 1 ≤ b.maxBuffer →
    (FillLoop cs i b).data.length = (FillLoop cs i b).maxBuffer ∧
    i + cs.length + 1 ≤ (FillLoop cs i b).maxBuffer ∧
    (FillLoop cs i b).data.take (i + cs.length) = b.data.take i ++ cs := by
  intro cs
  induction cs with
  | nil =>
    intro i b hlen hcap
    exact ⟨hlen, by simpa using hcap, by simp [FillLoop]⟩
  | cons c cs ih =>
    intro i b hlen hcap
    have key : (writeChar b i c).data.length = (writeChar b i c).maxBuffer ∧
        i + 2 ≤ (writeChar b i c).maxBuffer ∧
        (writeChar b i c).data.take (i + 1) = b.data.take i ++ [c] := by
      simp only [writeChar]
      by_cases hd : b.maxBuffer - 1 ≤ i
      · simp only [if_pos hd]
        refine ⟨by simp [hlen]; omega, by omega, ?_⟩
        rw [take_succ_set _ _ _ (by simp [hlen]; omega)]
        rw [take_append_of_le _ _ _ (by omega)]
      · simp only [if_neg hd]
        refine ⟨by simp [hlen], by omega, ?_⟩
        rw [take_succ_set _ _ _ (by omega)]
    obtain ⟨k1, k2, k3⟩ := key
    obtain ⟨r1, r2, r3⟩ := ih (i + 1) (writeChar b i c) k1 k2
    have hs : FillLoop (c :: cs) i b = FillLoop cs (i + 1) (writeChar b i c) := rfl
    refine ⟨hs ▸ r1, ?_, ?_⟩
    · rw [hs]
      simp only [List.length_cons]
      omega
    · rw [hs]
      have harith : i + (c :: cs).length = (i + 1) + cs.length := by
        simp only [List.length_cons]
        omega
      rw [harith, r3, k3]
      simp

/-- C7: the growable line buffer of the file-backed reader maintains capacity
at least length plus one at every step of consuming a line, and a
capacity-doubling reallocation never truncates content: for every line —
including every line longer than the initial 80-byte capacity, which forces a
doubling — reading the buffer back after the fill yields the full line
exactly as consumed from the input. -/
theorem FillBuffer_no_truncation (line : List Nat) :
    ((FillBuffer line).data.take line.length = line ∧
      line.length + 1 ≤ (FillBuffer line).maxBuffer ∧
      (FillBuffer line).data.length = (FillBuffer line).maxBuffer) ∧
    (∀ i, i ≤ line.length →
      i + 1 ≤ (FillLoop (line.take i) 0 initBuffer).maxBuffer) ∧
    (80 < line.length → 80 < (FillBuffer line).maxBuffer) := by
  obtain ⟨b1, b2, b3⟩ :=
    FillLoop_invariant line 0 initBuffer (by simp [initBuffer]) (by simp [initBuffer])
  refine ⟨⟨?_, ?_, ?_⟩, ?_, ?_⟩
  · simp only [FillBuffer]
    rw [take_set_of_le _ _ _ _ (le_refl line.length)]
    simpa using b3
  · simp only [FillBuffer]
    omega
  · simp only [FillBuffer, List.length_set]
    exact b1
  · intro i hi
    obtain ⟨_, c2, _⟩ := FillLoop_invariant (line.take i) 0 initBuffer
      (by simp [initBuffer]) (by simp [initBuffer])
    have hlen : (line.take i).length = i := by
      simp [List.length_take]
      omega
    rw [hlen] at c2
    omega
  · intro hlong
    simp only [FillBuffer]
    omega

/-- Witness for C7 at a 100-byte line, longer than the initial capacity. -/
theorem FillBuffer_no_truncation_witness :
    (FillBuffer (List.replicate 100 51)).data.take 100 = List.replicate 100 51 ∧
    101 ≤ (FillBuffer (List.replicate 100 51)).maxBuffer ∧
    80 < (FillBuffer (List.replicate 100 51)).maxBuffer := by
  obtain ⟨⟨h1, h2, _⟩, _, h3⟩ := FillBuffer_no_truncation (List.replicate 100 51)
  refine ⟨?_, ?_, ?_⟩
  · simpa using h1
  · simpa using h2
  · exact h3 (by simp)
